import Mathlib

/-!
Verification of the pdf-image-extractor layout reconstruction engine.

A shallow embedding, in Lean 4, of the document layout reconstruction core of
the `pdf-image-extractor` repository, together with theorems settling the
frozen claims about it.

Conventions of the embedding:
* Python floats are modelled exactly as rationals (`ℚ`); all the arithmetic in
  the embedded code paths is addition, subtraction, multiplication, division
  and comparison, which the code uses on values where exact rational
  arithmetic agrees with the intent of the heuristics.
* Python `list.sort` / `sorted` are stable sorts; they are modelled by
  `List.insertionSort` with a non-strict (total, transitive) comparison, which
  is a stable sort and therefore produces the same list.
* Python dicts with a fixed key set are modelled as structures; a dynamically
  typed color value is modelled by the inductive `PyVal`.
* Fallible operations of the external PyMuPDF/PIL collaborators
  (`doc.extract_image`, `Image.open`, `imagehash.phash`) are modelled as
  `Option`-valued inputs: `none` models the call raising an exception.
* File writes are side effects outside the shallow embedding; the file *names*
  the code computes are embedded as `String`-valued functions.
-/

/-- A Python ``float``-valued bbox `[x0, y0, x1, y1]`, in page points. -/
structure Rect where
  x0 : ℚ
  y0 : ℚ
  x1 : ℚ
  y1 : ℚ
deriving DecidableEq, Repr

/-- A dynamically-typed Python value, as far as the color normalizers can
observe one: `None`, an `int`, a `float`, a `str`, or a `list`/`tuple` of
values. -/
inductive PyVal where
  | vNone : PyVal
  | vInt : ℤ → PyVal
  | vFloat : ℚ → PyVal
  | vStr : String → PyVal
  | vList : List PyVal → PyVal

/-- Python `int(x)` on a float: truncation toward zero. -/
def pyTrunc (q : ℚ) : ℤ :=
  if q < 0 then -((-q).floor) else q.floor

/-- The ASCII characters Python's `int(str)` strips as surrounding
whitespace: space, `\t`, `\n`, `\v`, `\f`, `\r` (0x09–0x0D) and the
separator controls 0x1C–0x1F.  (Non-ASCII Unicode whitespace is outside the
model; no theorem relies on the parser's verdict for strings containing
non-ASCII characters.) -/
def pyIntSpace (c : Char) : Bool :=
  decide (c.toNat = 32 ∨ (9 ≤ c.toNat ∧ c.toNat ≤ 13) ∨
    (28 ≤ c.toNat ∧ c.toNat ≤ 31))

/-- Surrounding-whitespace stripping performed by Python `int(str)`. -/
def pyStripChars (l : List Char) : List Char :=
  ((l.dropWhile pyIntSpace).reverse.dropWhile pyIntSpace).reverse

/-- The digit tail of a Python decimal int literal after its first digit:
further digits, with single underscores allowed only between digits. -/
def parseDigitsGrouped : ℕ → List Char → Option ℕ
  | acc, [] => some acc
  | acc, '_' :: d :: rest =>
    if d.isDigit then parseDigitsGrouped (10 * acc + (d.toNat - 48)) rest else none
  | _acc, ['_'] => none
  | acc, d :: rest =>
    if d.isDigit then parseDigitsGrouped (10 * acc + (d.toNat - 48)) rest else none

/-- A Python decimal digit run: at least one ASCII digit, with single
underscores between digits (`"1_2"` parses, `"_1"`, `"1_"`, `"1__2"` do
not).  Non-ASCII decimal digits are outside the model. -/
def parseDigitsU : List Char → Option ℕ
  | [] => none
  | c :: rest =>
    if c.isDigit then parseDigitsGrouped (c.toNat - 48) rest else none

/-- An optional sign followed by a digit run. -/
def parseSigned (cs : List Char) : Option ℤ :=
  match cs with
  | [] => none
  | c :: rest =>
    if c = '-' then (parseDigitsU rest).map (fun n => -(n : ℤ))
    else if c = '+' then (parseDigitsU rest).map (fun n => (n : ℤ))
    else (parseDigitsU (c :: rest)).map (fun n => (n : ℤ))

/-- Python `int(s)` for a string `s`: strip surrounding whitespace, then
parse an optional sign and an underscore-grouped decimal digit run; any
other shape raises `ValueError`, modelled as `none`. -/
def pyStrToInt (s : String) : Option ℤ :=
  parseSigned (pyStripChars s.data)

/-- Python `int()` coercion as used by `_hex_color`: succeeds on ints (the
identity), floats (truncation toward zero) and decimal strings; raises
(`none`) on `None`, lists/tuples and non-decimal strings. -/
def pyIntCoerce : PyVal → Option ℤ
  | .vInt n => some n
  | .vFloat q => some (pyTrunc q)
  | .vStr s => pyStrToInt s
  | .vNone => none
  | .vList _ => none

/-- Lowercase hexadecimal digits of a natural number (Python `x` format). -/
def hexDigits (n : ℕ) : List Char :=
  Nat.toDigits 16 n

/-- Python `f"{n:0{w}x}"`: lowercase hex, zero-padded to total width `w`;
negative numbers carry a leading minus sign inside the width. -/
def pyHex (w : ℕ) (n : ℤ) : String :=
  let s := hexDigits n.natAbs
  if n < 0 then
    ⟨'-' :: (List.replicate (w - 1 - s.length) '0' ++ s)⟩
  else
    ⟨List.replicate (w - s.length) '0' ++ s⟩

/-- Python `f"{n:0{w}d}"`: decimal, zero-padded to total width `w` (only used
on natural numbers here). -/
def pyPad (w : ℕ) (n : ℕ) : String :=
  let s := toString n
  ⟨List.replicate (w - s.data.length) '0' ++ s.data⟩

/-- Python `str.strip()`: drop leading and trailing whitespace. -/
def pyStrip (s : String) : String :=
  ⟨((s.data.dropWhile Char.isWhitespace).reverse.dropWhile Char.isWhitespace).reverse⟩

/-- Python `str.lower()`. -/
def pyLower (s : String) : String :=
  ⟨s.data.map Char.toLower⟩

/-- `listHasPrefixCh needle hay`: `needle` is a prefix of `hay`. -/
def listHasPrefixCh : List Char → List Char → Bool
  | [], _ => true
  | _ :: _, [] => false
  | a :: as, b :: bs => a == b && listHasPrefixCh as bs

/-- Python `needle in hay` for strings: substring containment. -/
def listHasSub (needle : List Char) : List Char → Bool
  | [] => listHasPrefixCh needle []
  | h :: t => listHasPrefixCh needle (h :: t) || listHasSub needle t

/-- Python `sub in s` on strings. -/
def strContains (s sub : String) : Bool :=
  listHasSub sub.data s.data

/- ---------------------------------------------------------------------------
`src/app/services/html_renderer.py` — shared utilities
--------------------------------------------------------------------------- -/

/-- `_overlaps(a, b, expand)` from `html_renderer.py`:
`not (a[2] <= b[0] - expand or b[2] + expand <= a[0] or
      a[3] <= b[1] - expand or b[3] + expand <= a[1])`. -/
def overlaps (a b : Rect) (expand : ℚ := 4) : Prop :=
  ¬ (a.x1 ≤ b.x0 - expand ∨ b.x1 + expand ≤ a.x0 ∨
     a.y1 ≤ b.y0 - expand ∨ b.y1 + expand ≤ a.y0)

instance (a b : Rect) (e : ℚ) : Decidable (overlaps a b e) := by
  unfold overlaps; infer_instance

/-- A hyperlink hot-zone entry of a page's link list (a dict with a `bbox`
and a `url`). -/
structure Link where
  bbox : Rect
  url : String
deriving DecidableEq, Repr

/-- `_find_link(bbox, links)` from `html_renderer.py`: return the URL of the
first link whose bbox overlaps this block (with the default 4 pt expansion). -/
def find_link (bbox : Rect) : List Link → Option String
  | [] => none
  | lnk :: rest =>
    if overlaps bbox lnk.bbox then some lnk.url else find_link bbox rest

/- ---------------------------------------------------------------------------
`src/app/services/html_renderer.py` — `_detect_column_split`
--------------------------------------------------------------------------- -/

/-- Number of blocks whose `x0` lies strictly left of `s`
(`sum(1 for b in text_blocks if b["bbox"][0] < split)`). -/
def countLt (xs : List ℚ) (s : ℚ) : ℕ :=
  (xs.filter (fun x => decide (x < s))).length

/-- Number of blocks whose `x0` lies at-or-right of `s`
(`sum(1 for b in text_blocks if b["bbox"][0] >= split)`). -/
def countGe (xs : List ℚ) (s : ℚ) : ℕ :=
  (xs.filter (fun x => decide (s ≤ x))).length

/-- The per-candidate tests of `_detect_column_split` that do not involve the
running best gap: the pair's midpoint lies in the middle zone
`(0.25 W, 0.80 W)` and at least two blocks lie strictly left and at least two
at-or-right of it. -/
def eligSplit (xs : List ℚ) (W : ℚ) (p : ℚ × ℚ) : Prop :=
  W / 4 < (p.1 + p.2) / 2 ∧ (p.1 + p.2) / 2 < W * (4/5) ∧
  2 ≤ countLt xs ((p.1 + p.2) / 2) ∧ 2 ≤ countGe xs ((p.1 + p.2) / 2)

instance (xs : List ℚ) (W : ℚ) (p : ℚ × ℚ) : Decidable (eligSplit xs W p) := by
  unfold eligSplit; infer_instance

/-- One iteration of the `for i in range(1, len(x0_vals))` loop of
`_detect_column_split`, carrying `(best_gap, best_split)`; `p` is the pair
`(x0_vals[i-1], x0_vals[i])`. -/
def stepSplit (xs : List ℚ) (W : ℚ) (acc : ℚ × Option ℚ) (p : ℚ × ℚ) :
    ℚ × Option ℚ :=
  if acc.1 < p.2 - p.1 ∧ eligSplit xs W p
  then (p.2 - p.1, some ((p.1 + p.2) / 2)) else acc

/-- `_detect_column_split(text_blocks, page_width)` from `html_renderer.py`,
on the list of block `x0` values.  Fewer than 4 blocks: no split.  Otherwise
scan consecutive pairs of the sorted `x0` values; a pair's midpoint becomes
the running best when its gap beats the running best gap, the midpoint is in
the middle zone `(0.25 W, 0.80 W)`, and at least two blocks lie strictly left
and at least two at-or-right of it.  The final best split is returned only if
its gap exceeds `0.10 W`. -/
def detect_column_split (xs : List ℚ) (W : ℚ) : Option ℚ :=
  if xs.length < 4 then none
  else
    let sorted := List.insertionSort (· ≤ ·) xs
    let best := (sorted.zip sorted.tail).foldl (stepSplit xs W) (0, none)
    if W * (1/10) < best.1 then best.2 else none

/-- The column-detection algorithm as the specification words it (claim C1):
candidate eligibility is the middle-zone test only, the largest-gap eligible
candidate is chosen, and the `> 0.10 W` gap test together with the
two-blocks-per-side test are applied to that chosen candidate afterwards. -/
def detect_column_split_claimed (xs : List ℚ) (W : ℚ) : Option ℚ :=
  if xs.length < 4 then none
  else
    let sorted := List.insertionSort (· ≤ ·) xs
    let best := (sorted.zip sorted.tail).foldl
      (fun (acc : ℚ × Option ℚ) (p : ℚ × ℚ) =>
        let gap := p.2 - p.1
        let split := (p.1 + p.2) / 2
        if acc.1 < gap ∧ W / 4 < split ∧ split < W * (4/5)
        then (gap, some split) else acc) (0, none)
    match best.2 with
    | none => none
    | some s =>
      if W * (1/10) < best.1 ∧ 2 ≤ countLt xs s ∧ 2 ≤ countGe xs s
      then some s else none

/- ---------------------------------------------------------------------------
`src/app/services/html_renderer.py` — pixel-exact renderer geometry
--------------------------------------------------------------------------- -/

/-- The `type` tag of a layout block (`"text"`, `"image"` or `"link"`). -/
inductive BType where
  | text
  | image
  | link
deriving DecidableEq, Repr

/-- A layout block as the pixel-exact renderer consumes it. -/
structure LayoutBlock where
  btype : BType
  bbox : Rect
  text : String := ""
  size : ℚ := 12
  color : String := "#000000"
  flags : ℕ := 0
  src : String := ""
  url : String := ""
deriving DecidableEq, Repr

/-- The absolutely-positioned CSS geometry `render_html_exact` emits for one
block: `left`/`top` are the bbox origin and `width`/`height` are clamped
below at 1.0 (`bw = max(1.0, x1 - x0)`, `bh = max(1.0, y1 - y0)`); for text
blocks the `height` field is emitted as `min-height`. -/
structure RenderedBox where
  layer : BType
  left : ℚ
  top : ℚ
  width : ℚ
  height : ℚ
deriving DecidableEq, Repr

/-- Geometry of the node emitted for one block in `render_html_exact`. -/
def renderedBoxOf (b : LayoutBlock) : RenderedBox :=
  { layer := b.btype
    left := b.bbox.x0
    top := b.bbox.y0
    width := max 1 (b.bbox.x1 - b.bbox.x0)
    height := max 1 (b.bbox.y1 - b.bbox.y0) }

/-- The per-page element loop of `render_html_exact`: for each layer
(`"image"`, `"text"`, `"link"` in that order) walk all blocks, skip the ones
of a different type, and emit one absolutely-positioned node. -/
def render_exact_boxes (blocks : List LayoutBlock) : List RenderedBox :=
  ([BType.image, BType.text, BType.link]).flatMap
    (fun layer => (blocks.filter (fun b => b.btype == layer)).map renderedBoxOf)

/- ---------------------------------------------------------------------------
`src/app/services/layout_extractor.py` — `_hex_color`
--------------------------------------------------------------------------- -/

/-- `_hex_color(c)` from `layout_extractor.py`:
`try: return f"#{int(c):06x}" except (TypeError, ValueError): return "#000000"`. -/
def hex_color (c : PyVal) : String :=
  match pyIntCoerce c with
  | some n => "#" ++ pyHex 6 n
  | none => "#000000"

/- ---------------------------------------------------------------------------
`src/app/services/structured_extractor.py` — `_color_to_hex` and font helpers
--------------------------------------------------------------------------- -/

/-- `int(x * 255)` for one sequence entry of `_color_to_hex`: ints and floats
multiply numerically and truncate; a string `x` makes `x * 255` the string
repeated 255 times, which `int` then parses — so a decimal-digit string
entry *succeeds*, producing a huge value; `None` and nested sequences raise
`TypeError`. -/
def pyMul255ThenInt : PyVal → Option ℤ
  | .vInt n => some (n * 255)
  | .vFloat q => some (pyTrunc (q * 255))
  | .vStr s => pyStrToInt ⟨(List.replicate 255 s.data).flatten⟩
  | .vNone => none
  | .vList _ => none

/-- `_color_to_hex(color)` from `structured_extractor.py`.  `None` stays
`None`; a list/tuple of length ≥ 3 formats `int(c*255)` of its first three
entries as three two-digit hex fields (falling to `None` only when one of
those `int(c*255)` calls raises — note a decimal-digit string entry does
*not* raise, since `c*255` is string repetition); an int is masked to 24
bits and formatted as six hex digits; a float is treated as grayscale; any
other value yields `None`. -/
def color_to_hex : PyVal → Option String
  | .vNone => none
  | .vList xs =>
    match xs with
    | a :: b :: c :: _ =>
      match pyMul255ThenInt a, pyMul255ThenInt b, pyMul255ThenInt c with
      | some r, some g, some bl =>
        some ("#" ++ pyHex 2 r ++ pyHex 2 g ++ pyHex 2 bl)
      | _, _, _ => none
    | _ => none
  | .vInt n => some ("#" ++ pyHex 6 (n % 16777216))
  | .vFloat q =>
    let v := pyTrunc (q * 255)
    some ("#" ++ pyHex 2 v ++ pyHex 2 v ++ pyHex 2 v)
  | .vStr _ => none

/-- `_infer_font_weight(font_name, flags)` from `structured_extractor.py`. -/
def infer_font_weight (font_name : String) (flags : ℕ) : String :=
  let nl := pyLower font_name
  if strContains nl "bold" || strContains nl "heavy" || strContains nl "black"
  then "bold"
  else if flags &&& 16 ≠ 0 then "bold"
  else "normal"

/-- `_infer_font_style(font_name, flags)` from `structured_extractor.py`. -/
def infer_font_style (font_name : String) (flags : ℕ) : String :=
  let nl := pyLower font_name
  if strContains nl "italic" || strContains nl "oblique" then "italic"
  else if flags &&& 2 ≠ 0 then "italic"
  else "normal"

/-- Python `round(q, nd)`: round half to even (banker's rounding), modelled
exactly over the rationals. -/
def pyRound (nd : ℕ) (q : ℚ) : ℚ :=
  let m := q * ((10 : ℚ) ^ nd)
  let f := m.floor
  let r : ℤ :=
    if 1/2 < m - f then f + 1
    else if m - f < 1/2 then f
    else if f % 2 = 0 then f else f + 1
  (r : ℚ) / ((10 : ℚ) ^ nd)

/-- `round(v, 2)` applied to the four coordinates of a bbox. -/
def roundRect (r : Rect) : Rect :=
  ⟨pyRound 2 r.x0, pyRound 2 r.y0, pyRound 2 r.x1, pyRound 2 r.y1⟩

/- ---------------------------------------------------------------------------
`src/app/services/layout_extractor.py` — `_merge_spans_to_blocks`
--------------------------------------------------------------------------- -/

/-- A raw PyMuPDF text span dict, with the `.get` defaults the code uses. -/
structure Span where
  text : String
  bbox : Rect
  font : String := ""
  size : ℚ := 12
  color : ℤ := 0
  flags : ℕ := 0
deriving DecidableEq, Repr

/-- A raw PyMuPDF line dict (its own bbox plus its spans). -/
structure RawLine where
  bbox : Rect
  spans : List Span
deriving DecidableEq, Repr

/-- A raw PyMuPDF block dict (`type` 0 is a text block). -/
structure RawBlock where
  btype : ℤ
  bbox : Rect
  lines : List RawLine
deriving DecidableEq, Repr

/-- A merged text line / paragraph block as built by
`_merge_spans_to_blocks` (the dicts with `"type": "text"`). -/
structure MLine where
  bbox : Rect
  text : String
  font : String
  size : ℚ
  color : String
  flags : ℕ
deriving DecidableEq, Repr

/-- First maximal element by size (Python `max(..., key=lambda s: s["size"])`
keeps the earliest maximal element). -/
def dominantSpan (h : Span) (t : List Span) : Span :=
  t.foldl (fun best s => if best.size < s.size then s else best) h

/-- Step 1 of `_merge_spans_to_blocks` for one raw line: strip span texts,
drop empty ones, join the rest with single spaces, take the union bbox and
the style of the dominant (largest-size) span. -/
def lineToMerged (line : RawLine) : Option MLine :=
  let line_spans := line.spans.filterMap (fun s =>
    let t := pyStrip s.text
    if t = "" then none else some { s with text := t })
  match line_spans with
  | [] => none
  | h :: t =>
    let dom := dominantSpan h t
    some
      { text := String.intercalate " " ((h :: t).map Span.text)
        bbox :=
          { x0 := t.foldl (fun m s => min m s.bbox.x0) h.bbox.x0
            y0 := t.foldl (fun m s => min m s.bbox.y0) h.bbox.y0
            x1 := t.foldl (fun m s => max m s.bbox.x1) h.bbox.x1
            y1 := t.foldl (fun m s => max m s.bbox.y1) h.bbox.y1 }
        font := dom.font
        size := dom.size
        color := hex_color (.vInt dom.color)
        flags := dom.flags }

/-- Step 1 of `_merge_spans_to_blocks` over all raw blocks: text blocks only,
lines in extraction order. -/
def spansToLines (raw_blocks : List RawBlock) : List MLine :=
  (raw_blocks.filter (fun b => b.btype == 0)).flatMap
    (fun b => b.lines.filterMap lineToMerged)

/-- The merge test of step 2 of `_merge_spans_to_blocks`: vertical gap at most
60% of the average font size, font sizes within 3 pt, and x0 within 50 pt. -/
def mergeCondHolds (current line : MLine) : Prop :=
  line.bbox.y0 - current.bbox.y1 ≤ (current.size + line.size) / 2 * (6/10) ∧
  |line.size - current.size| < 3 ∧
  |line.bbox.x0 - current.bbox.x0| < 50

instance (c l : MLine) : Decidable (mergeCondHolds c l) := by
  unfold mergeCondHolds; infer_instance

/-- Merging one more line into the running paragraph: concatenate the text,
extend `x1` by max, and set the paragraph bottom to the line's bottom. -/
def mergeInto (current line : MLine) : MLine :=
  { current with
    text := current.text ++ " " ++ line.text
    bbox := { current.bbox with
              x1 := max current.bbox.x1 line.bbox.x1
              y1 := line.bbox.y1 } }

/-- The loop of step 2 of `_merge_spans_to_blocks`, carrying the running
paragraph `current`. -/
def mergeLoop (current : MLine) : List MLine → List MLine
  | [] => [current]
  | line :: rest =>
    if mergeCondHolds current line then mergeLoop (mergeInto current line) rest
    else current :: mergeLoop line rest

/-- Step 2 of `_merge_spans_to_blocks`: fold the merged lines, in the order
step 1 produced them, into paragraphs. -/
def merge_lines_to_paragraphs : List MLine → List MLine
  | [] => []
  | l :: ls => mergeLoop l ls

/-- `_merge_spans_to_blocks(raw_blocks)` from `layout_extractor.py`:
step 1 (spans to lines) followed by step 2 (lines to paragraphs). -/
def merge_spans_to_blocks (raw_blocks : List RawBlock) : List MLine :=
  merge_lines_to_paragraphs (spansToLines raw_blocks)

/-- The merger as claim C5 words it: with the merged lines sorted by top
(`y0`) ascending before the paragraph-merge step. -/
def merge_spans_to_blocks_claimed (raw_blocks : List RawBlock) : List MLine :=
  merge_lines_to_paragraphs
    (List.insertionSort (fun a b => a.bbox.y0 ≤ b.bbox.y0) (spansToLines raw_blocks))

/- ---------------------------------------------------------------------------
`src/app/services/structured_extractor.py` — element extraction and assembly
--------------------------------------------------------------------------- -/

/-- The `type` tag of a structured element (`"rect"`, `"image"`, `"text"`). -/
inductive EType where
  | rect
  | image
  | text
deriving DecidableEq, Repr

/-- A structured element dict; fields not set by a given element type keep
their defaults (a Python dict simply lacks those keys). -/
structure Elem where
  id : String
  etype : EType
  order : ℕ
  bbox : Rect := ⟨0, 0, 0, 0⟩
  text : String := ""
  font_family : String := ""
  font_size : ℚ := 0
  font_weight : String := ""
  font_style : String := ""
  color : String := ""
  src : String := ""
  width_px : ℤ := 0
  height_px : ℤ := 0
  phash : Option String := none
  fill_color : Option String := none
  stroke_color : Option String := none
  stroke_width : ℚ := 0
deriving DecidableEq, Repr

/-- A PyMuPDF drawing dict as `_extract_shape_elements` reads it:
`rect` (possibly absent), `fill` and `color` values, optional `width`. -/
structure Drawing where
  rect : Option Rect
  fill : PyVal := .vNone
  color : PyVal := .vNone
  width : Option ℚ := none

/-- The body of the `for draw_idx, drawing in enumerate(page.get_drawings())`
loop: skip drawings without a rect, with a dimension under 2 pt, or with
neither fill nor stroke color; otherwise build the rect element. -/
def shapeOf (page_idx draw_idx : ℕ) (d : Drawing) : Option Elem :=
  match d.rect with
  | none => none
  | some r =>
    if r.x1 - r.x0 < 2 ∨ r.y1 - r.y0 < 2 then none
    else
      let fill_color := color_to_hex d.fill
      let stroke_color := color_to_hex d.color
      if fill_color = none ∧ stroke_color = none then none
      else
        some { id := "r_" ++ toString page_idx ++ "_" ++ pyPad 4 draw_idx
               etype := .rect
               bbox := roundRect r
               fill_color := fill_color
               stroke_color := stroke_color
               stroke_width := pyRound 1 (d.width.getD 0)
               order := draw_idx }

/-- The drawing loop of `_extract_shape_elements`: `draw_idx` advances for
every drawing, emitted or skipped. -/
def goShapes (page_idx : ℕ) (draw_idx : ℕ) : List Drawing → List Elem
  | [] => []
  | d :: rest =>
    match shapeOf page_idx draw_idx d with
    | none => goShapes page_idx (draw_idx + 1) rest
    | some e => e :: goShapes page_idx (draw_idx + 1) rest

/-- `_extract_shape_elements(page, page_idx)` from `structured_extractor.py`,
over the page's drawing list. -/
def extract_shape_elements (drawings : List Drawing) (page_idx : ℕ) : List Elem :=
  goShapes page_idx 0 drawings

/-- `f"page{page_idx + 1:03d}_img{img_idx + 1:02d}_xref{xref}.{img_ext}"`,
the embedded-image filename `_extract_image_elements` writes. -/
def structured_image_name (page_idx img_idx xref : ℕ) (ext : String) : String :=
  "page" ++ pyPad 3 (page_idx + 1) ++ "_img" ++ pyPad 2 (img_idx + 1) ++
    "_xref" ++ toString xref ++ "." ++ ext

/-- One embedded image as `_extract_image_elements` observes it through the
external collaborators: its `xref`, its placement rects, and the outcomes of
the three fallible calls — `doc.extract_image` (`some ext` on success),
`Image.open`/`.size` (`some (w, h)` on success), `imagehash.phash`
(`some hash` on success); `none` models the call raising. -/
structure ImgInput where
  xref : ℕ
  rects : List Rect := []
  extractOk : Option String := none
  decodeOk : Option (ℤ × ℤ) := none
  hashOk : Option String := none

/-- The body of the `for img_idx, img_info in enumerate(page.get_images(...))`
loop of `_extract_image_elements`: no placement rect skips the image; a
failing `doc.extract_image` drops it (`except Exception: continue`); a failing
decode leaves `width_px = height_px = 0` and `phash = None`, after which zero
width falls back to the placement rect's dimensions. -/
def imageElemOf (page_idx img_idx : ℕ) (session_id base_url : String)
    (phashAvail : Bool) (im : ImgInput) : Option Elem :=
  match im.rects with
  | [] => none
  | rect :: _ =>
    match im.extractOk with
    | none => none
    | some ext0 =>
      let ext1 := pyLower ext0
      let ext := if ext1 = "jpeg" then "jpg" else ext1
      let img_filename := structured_image_name page_idx img_idx im.xref ext
      let whp : ℤ × ℤ × Option String :=
        if phashAvail then
          match im.decodeOk with
          | some (pw, ph) => (pw, ph, im.hashOk)
          | none => (0, 0, none)
        else (0, 0, none)
      let wh : ℤ × ℤ :=
        if whp.1 = 0 then (pyTrunc (rect.x1 - rect.x0), pyTrunc (rect.y1 - rect.y0))
        else (whp.1, whp.2.1)
      some { id := "i_" ++ toString page_idx ++ "_" ++ pyPad 4 img_idx
             etype := .image
             src := base_url ++ "/api/v1/images/" ++ session_id ++ "/" ++ img_filename
             bbox := roundRect rect
             width_px := wh.1
             height_px := wh.2
             phash := whp.2.2
             order := img_idx }

/-- The image loop of `_extract_image_elements`: `img_idx` advances for every
image, emitted or skipped. -/
def goImages (page_idx : ℕ) (session_id base_url : String) (phashAvail : Bool)
    (img_idx : ℕ) : List ImgInput → List Elem
  | [] => []
  | im :: rest =>
    match imageElemOf page_idx img_idx session_id base_url phashAvail im with
    | none => goImages page_idx session_id base_url phashAvail (img_idx + 1) rest
    | some e => e :: goImages page_idx session_id base_url phashAvail (img_idx + 1) rest

/-- `_extract_image_elements(page, doc, page_idx, out_dir, session_id,
base_url)` from `structured_extractor.py`, over the page's image list. -/
def extract_image_elements (imgs : List ImgInput) (page_idx : ℕ)
    (session_id base_url : String) (phashAvail : Bool) : List Elem :=
  goImages page_idx session_id base_url phashAvail 0 imgs

/-- The per-line body of `_extract_text_elements`: skip span-less lines, join
the stripped span texts, skip empty results; style comes from the dominant
(largest-size) span; `ctr` is the running `order_counter`. -/
def textElemOf (page_idx ctr : ℕ) (line : RawLine) : Option Elem :=
  match line.spans with
  | [] => none
  | s :: ss =>
    let line_text := pyStrip (String.intercalate " " ((s :: ss).map (fun sp => pyStrip sp.text)))
    if line_text = "" then none
    else
      let dom := dominantSpan s ss
      some { id := "t_" ++ toString page_idx ++ "_" ++ pyPad 4 ctr
             etype := .text
             text := line_text
             bbox := roundRect line.bbox
             font_family := dom.font
             font_size := pyRound 1 dom.size
             font_weight := infer_font_weight dom.font dom.flags
             font_style := infer_font_style dom.font dom.flags
             color := (color_to_hex (.vInt dom.color)).getD "#000000"
             order := ctr }

/-- The line loop of `_extract_text_elements` inside one block:
`order_counter` advances only when an element is emitted. -/
def goTextLines (page_idx ctr : ℕ) : List RawLine → List Elem
  | [] => []
  | ln :: rest =>
    match textElemOf page_idx ctr ln with
    | none => goTextLines page_idx ctr rest
    | some e => e :: goTextLines page_idx (ctr + 1) rest

/-- The block loop of `_extract_text_elements`: non-text blocks are skipped,
and the counter advances by the number of elements the block emitted. -/
def goTextBlocks (page_idx ctr : ℕ) : List RawBlock → List Elem
  | [] => []
  | b :: rest =>
    if b.btype == 0 then
      let es := goTextLines page_idx ctr b.lines
      es ++ goTextBlocks page_idx (ctr + es.length) rest
    else goTextBlocks page_idx ctr rest

/-- `_extract_text_elements(page, page_idx)` from `structured_extractor.py`:
text elements start at order 100 (`order_counter = 100`). -/
def extract_text_elements (raw_blocks : List RawBlock) (page_idx : ℕ) : List Elem :=
  goTextBlocks page_idx 100 raw_blocks

/-- Python's stable `list.sort(key=lambda e: e["order"])`, modelled by
insertion sort on the non-strict key comparison (insertion sort with a total
non-strict comparison is stable, hence produces the same list as any stable
sort). -/
def pySortByOrder (l : List Elem) : List Elem :=
  List.insertionSort (fun a b => a.order ≤ b.order) l

/-- The element assembly of `extract_structured` for one page:
`all_elements = shape_elements + image_elements + text_elements` followed by
`all_elements.sort(key=lambda e: e["order"])`. -/
def assemble_page_elements (shapes images texts : List Elem) : List Elem :=
  pySortByOrder (shapes ++ images ++ texts)

/- ---------------------------------------------------------------------------
File naming — `structured_extractor.py`, `layout_extractor.py`,
`image_extractor.py`
--------------------------------------------------------------------------- -/

/-- `f"page{page_idx + 1:03d}_render.png"` from `_render_page_png`. -/
def render_png_name (page_idx : ℕ) : String :=
  "page" ++ pyPad 3 (page_idx + 1) ++ "_render.png"

/-- `f"page{pno + 1:03d}_img{xref}.png"` from `extract_layout` in
`layout_extractor.py`. -/
def layout_image_name (pno xref : ℕ) : String :=
  "page" ++ pyPad 3 (pno + 1) ++ "_img" ++ toString xref ++ ".png"

/-- `f"page_{page_num + 1}_img_{image_counter}.{self.output_format}"` from
`PDFImageExtractor.extract_images` in `image_extractor.py` (`image_counter`
is a document-global running counter starting at 1). -/
def extract_images_name (page_num image_counter : ℕ) (fmt : String) : String :=
  "page_" ++ toString (page_num + 1) ++ "_img_" ++ toString image_counter ++ "." ++ fmt

/-- `f"page{page_no:03d}_img{img_i:02d}_xref{xref}.{ext}"` from
`PDFImageExtractor.extract_images_and_renders` (`page_no` is 1-based there,
`img_i` enumerates from 1). -/
def zip_image_name (page_no img_i xref : ℕ) (ext : String) : String :=
  "page" ++ pyPad 3 page_no ++ "_img" ++ pyPad 2 img_i ++ "_xref" ++
    toString xref ++ "." ++ ext

/-- `f"page{page_no:03d}_render.png"` from
`PDFImageExtractor.extract_images_and_renders`. -/
def zip_render_name (page_no : ℕ) : String :=
  "page" ++ pyPad 3 page_no ++ "_render.png"

/-- Modelled from the spec (§6): the naming convention
`page{page:03d}_img{xref-or-index}.{ext}` for embedded images, with `page`
the 1-based page number and a single numeric identifier after `_img`. -/
def specEmbeddedName (page ident : ℕ) (ext : String) : String :=
  "page" ++ pyPad 3 page ++ "_img" ++ toString ident ++ "." ++ ext

/-- Modelled from the spec (§6): the naming convention
`page{page:03d}_render.png` for full-page renders. -/
def specRenderName (page : ℕ) : String :=
  "page" ++ pyPad 3 page ++ "_render.png"

/- ---------------------------------------------------------------------------
Helper lemmas
--------------------------------------------------------------------------- -/

/-- The branch equations of `mergeLoop` in terms of the merge condition. -/
theorem mergeLoop_cons_of_cond {c l : MLine} (ls : List MLine)
    (h : mergeCondHolds c l) :
    mergeLoop c (l :: ls) = mergeLoop (mergeInto c l) ls := by
  simp [mergeLoop, h]

theorem mergeLoop_cons_of_not_cond {c l : MLine} (ls : List MLine)
    (h : ¬ mergeCondHolds c l) :
    mergeLoop c (l :: ls) = c :: mergeLoop l ls := by
  simp [mergeLoop, h]

/- ---------------------------------------------------------------------------
Claim C2 — paragraph merge condition
--------------------------------------------------------------------------- -/

/-- C2: in the paragraph-merge step, a line joins the running paragraph
exactly when the vertical gap (line top minus running paragraph bottom) is at
most 0.6 times the average of the two font sizes, the font sizes differ by
less than 3 pt, and the x0 values differ by less than 50 pt; otherwise a new
paragraph starts.  In particular two size-12 lines with equal x0 merge at a
5 pt gap and stay separate at an 8 pt gap. -/
theorem merge_condition_characterization :
    (∀ c l : MLine,
      (mergeLoop c [l]).length = 1 ↔
        (l.bbox.y0 - c.bbox.y1 ≤ (6/10) * ((c.size + l.size) / 2) ∧
         |l.size - c.size| < 3 ∧ |l.bbox.x0 - c.bbox.x0| < 50)) ∧
    (∀ c l : MLine, ∀ ls : List MLine,
      (l.bbox.y0 - c.bbox.y1 ≤ (6/10) * ((c.size + l.size) / 2) ∧
       |l.size - c.size| < 3 ∧ |l.bbox.x0 - c.bbox.x0| < 50) →
      mergeLoop c (l :: ls) = mergeLoop (mergeInto c l) ls) ∧
    (∀ c l : MLine, ∀ ls : List MLine,
      ¬ (l.bbox.y0 - c.bbox.y1 ≤ (6/10) * ((c.size + l.size) / 2) ∧
         |l.size - c.size| < 3 ∧ |l.bbox.x0 - c.bbox.x0| < 50) →
      mergeLoop c (l :: ls) = c :: mergeLoop l ls) ∧
    (merge_lines_to_paragraphs
      [⟨⟨10, 0, 100, 20⟩, "Hello", "F", 12, "#000000", 0⟩,
       ⟨⟨10, 25, 100, 37⟩, "World", "F", 12, "#000000", 0⟩]).length = 1 ∧
    (merge_lines_to_paragraphs
      [⟨⟨10, 0, 100, 20⟩, "Hello", "F", 12, "#000000", 0⟩,
       ⟨⟨10, 28, 100, 40⟩, "World", "F", 12, "#000000", 0⟩]).length = 2 := by
  have hiff : ∀ c l : MLine, mergeCondHolds c l ↔
      (l.bbox.y0 - c.bbox.y1 ≤ (6/10) * ((c.size + l.size) / 2) ∧
       |l.size - c.size| < 3 ∧ |l.bbox.x0 - c.bbox.x0| < 50) := by
    intro c l
    unfold mergeCondHolds
    constructor
    · rintro ⟨h1, h2, h3⟩; exact ⟨by linarith, h2, h3⟩
    · rintro ⟨h1, h2, h3⟩; exact ⟨by linarith, h2, h3⟩
  refine ⟨?_, ?_, ?_, ?_, ?_⟩
  · intro c l
    rw [← hiff]
    by_cases h : mergeCondHolds c l
    · rw [mergeLoop_cons_of_cond _ h]
      simp [mergeLoop, h]
    · rw [mergeLoop_cons_of_not_cond _ h]
      simp [mergeLoop, h]
  · intro c l ls h
    exact mergeLoop_cons_of_cond _ ((hiff c l).mpr h)
  · intro c l ls h
    exact mergeLoop_cons_of_not_cond _ (fun hc => h ((hiff c l).mp hc))
  · norm_num [merge_lines_to_paragraphs, mergeLoop, mergeCondHolds, mergeInto]
  · norm_num [merge_lines_to_paragraphs, mergeLoop, mergeCondHolds, mergeInto]

/-- Witness for C2: the merge equation applied to a concrete pair of size-12
lines with a 5 pt gap. -/
theorem merge_condition_characterization_witness :
    mergeLoop ⟨⟨10, 0, 100, 20⟩, "Hello", "F", 12, "#000000", 0⟩
      [⟨⟨10, 25, 100, 37⟩, "World", "F", 12, "#000000", 0⟩] =
    mergeLoop (mergeInto ⟨⟨10, 0, 100, 20⟩, "Hello", "F", 12, "#000000", 0⟩
      ⟨⟨10, 25, 100, 37⟩, "World", "F", 12, "#000000", 0⟩) [] :=
  merge_condition_characterization.2.1 _ _ [] (by norm_num)

/- ---------------------------------------------------------------------------
Claim C4 — link attachment
--------------------------------------------------------------------------- -/

/-- C4: a link attaches to a block exactly when the block bbox and the link
bbox expanded by 4 pt on each side overlap; the first matching link of the
page link list wins, and a block carries at most one link (the resolver
returns at most one URL).  In particular a link `[100,100,150,120]` attaches
to text starting at x0 = 146 and not to text starting at x0 = 155. -/
theorem link_attachment_characterization :
    (∀ a b : Rect, overlaps a b ↔
      (b.x0 - 4 < a.x1 ∧ a.x0 < b.x1 + 4 ∧ b.y0 - 4 < a.y1 ∧ a.y0 < b.y1 + 4)) ∧
    (∀ (bbox : Rect) (lnk : Link) (links : List Link),
      overlaps bbox lnk.bbox → find_link bbox (lnk :: links) = some lnk.url) ∧
    (∀ (bbox : Rect) (lnk : Link) (links : List Link),
      ¬ overlaps bbox lnk.bbox → find_link bbox (lnk :: links) = find_link bbox links) ∧
    find_link ⟨146, 100, 200, 120⟩ [⟨⟨100, 100, 150, 120⟩, "u"⟩] = some "u" ∧
    find_link ⟨155, 100, 200, 120⟩ [⟨⟨100, 100, 150, 120⟩, "u"⟩] = none := by
  refine ⟨?_, ?_, ?_, ?_, ?_⟩
  · intro a b
    unfold overlaps
    push_neg
    tauto
  · intro bbox lnk links h
    simp [find_link, h]
  · intro bbox lnk links h
    simp [find_link, h]
  · norm_num [find_link, overlaps]
  · norm_num [find_link, overlaps]

/-- Witness for C4: the first-match rule applied at a concrete overlapping
link. -/
theorem link_attachment_characterization_witness :
    find_link ⟨0, 0, 10, 10⟩
      [⟨⟨5, 5, 20, 20⟩, "first"⟩, ⟨⟨6, 6, 9, 9⟩, "second"⟩] = some "first" :=
  link_attachment_characterization.2.1 ⟨0, 0, 10, 10⟩ ⟨⟨5, 5, 20, 20⟩, "first"⟩
    [⟨⟨6, 6, 9, 9⟩, "second"⟩] (by norm_num [overlaps])

/- ---------------------------------------------------------------------------
Claim C10 — pixel-exact renderer clamps widths and heights at 1
--------------------------------------------------------------------------- -/

/-- C10: every node the pixel-exact renderer emits has CSS width
`max(1.0, x1 - x0)` and height (min-height for text) `max(1.0, y1 - y0)` of
its source block, hence both at least 1; a degenerate or inverted bbox still
yields a positive-size node. -/
theorem exact_renderer_min_size :
    (∀ (blocks : List LayoutBlock), ∀ r ∈ render_exact_boxes blocks,
      1 ≤ r.width ∧ 1 ≤ r.height ∧
      ∃ b ∈ blocks, r = renderedBoxOf b ∧
        r.width = max 1 (b.bbox.x1 - b.bbox.x0) ∧
        r.height = max 1 (b.bbox.y1 - b.bbox.y0)) ∧
    render_exact_boxes [{ btype := .text, bbox := ⟨5, 7, 5, 3⟩ }] =
      [⟨.text, 5, 7, 1, 1⟩] := by
  constructor
  · intro blocks r hr
    unfold render_exact_boxes at hr
    simp only [List.mem_flatMap, List.mem_map, List.mem_filter] at hr
    obtain ⟨layer, -, b, ⟨hb, -⟩, rfl⟩ := hr
    exact ⟨le_max_left 1 _, le_max_left 1 _, b, hb, rfl, rfl, rfl⟩
  · norm_num [render_exact_boxes, renderedBoxOf, max_eq_left]
    rfl

/-- Witness for C10: the clamp theorem applied to a one-block page whose
bbox is degenerate. -/
theorem exact_renderer_min_size_witness :
    1 ≤ (renderedBoxOf { btype := .image, bbox := ⟨0, 0, 0, 0⟩ }).width ∧
    1 ≤ (renderedBoxOf { btype := .image, bbox := ⟨0, 0, 0, 0⟩ }).height :=
  ⟨(exact_renderer_min_size.1 [{ btype := .image, bbox := ⟨0, 0, 0, 0⟩ }]
      (renderedBoxOf { btype := .image, bbox := ⟨0, 0, 0, 0⟩ })
      (by norm_num [render_exact_boxes, renderedBoxOf])).1,
   (exact_renderer_min_size.1 [{ btype := .image, bbox := ⟨0, 0, 0, 0⟩ }]
      (renderedBoxOf { btype := .image, bbox := ⟨0, 0, 0, 0⟩ })
      (by norm_num [render_exact_boxes, renderedBoxOf])).2.1⟩

/- ---------------------------------------------------------------------------
Claim C7 — color normalization on canonical hex strings
--------------------------------------------------------------------------- -/

/-- Dropping a prefix by a predicate that fails on the final element keeps
that final element last. -/
theorem dropWhile_append_last {p : Char → Bool} {c : Char} (hc : p c = false) :
    ∀ u : List Char, ∃ v, (u ++ [c]).dropWhile p = v ++ [c] := by
  intro u
  induction u with
  | nil =>
    refine ⟨[], ?_⟩
    simp [List.dropWhile_cons, hc]
  | cons a u ih =>
    by_cases ha : p a = true
    · obtain ⟨v, hv⟩ := ih
      exact ⟨v, by simp [List.dropWhile_cons, ha, hv]⟩
    · exact ⟨a :: u, by simp [List.dropWhile_cons, ha]⟩

/-- Stripping surrounding whitespace from a character list whose first
character is not whitespace keeps that character in front. -/
theorem pyStripChars_head {c : Char} (hc : pyIntSpace c = false) (l : List Char) :
    ∃ tl, pyStripChars (c :: l) = c :: tl := by
  have h1 : (c :: l).dropWhile pyIntSpace = c :: l := by
    simp [List.dropWhile_cons, hc]
  obtain ⟨v, hv⟩ := dropWhile_append_last hc l.reverse
  refine ⟨v.reverse, ?_⟩
  unfold pyStripChars
  rw [h1, List.reverse_cons, hv, List.reverse_append]
  simp

/-- Counterexample to C7: feeding the canonical string `"#0a0b0c"` back into
either normalizer does not return it — `_hex_color` yields `"#000000"` and
`_color_to_hex` yields `None`. -/
theorem color_idempotence_counterexample :
    hex_color (.vStr "#0a0b0c") = "#000000" ∧
    color_to_hex (.vStr "#0a0b0c") = none ∧
    "#000000" ≠ "#0a0b0c" := by
  refine ⟨by decide, rfl, by decide⟩

/-- C7 (amended): the normalizers are not idempotent on canonical strings —
strings are outside their recognized input domain.  `_color_to_hex` maps
every string to `None`, and `_hex_color` maps every string whose first
character is `'#'` (in particular every canonical `#rrggbb` string, which
`int()` cannot parse) to `"#000000"`. -/
theorem color_normalizer_on_strings (s : String) :
    color_to_hex (.vStr s) = none ∧
    (s.data.head? = some '#' → hex_color (.vStr s) = "#000000") := by
  refine ⟨rfl, ?_⟩
  intro h
  obtain ⟨tl, htl⟩ : ∃ tl, s.data = '#' :: tl := by
    cases hsd : s.data with
    | nil => rw [hsd] at h; simp at h
    | cons c cs =>
      rw [hsd] at h
      simp at h
      exact ⟨cs, by rw [h]⟩
  have hps : pyStrToInt s = none := by
    have hc : pyIntSpace '#' = false := by decide
    obtain ⟨tl2, h2⟩ := pyStripChars_head hc tl
    unfold pyStrToInt
    rw [htl, h2]
    have e1 : ('#' = '-') = False := by simp
    have e2 : ('#' = '+') = False := by simp
    have e3 : Char.isDigit '#' = false := by decide
    simp [parseSigned, e1, e2, e3, parseDigitsU]
  simp only [hex_color, pyIntCoerce]
  rw [hps]

/-- Witness for C7: the amended statement applied at the canonical string
`"#0a0b0c"`. -/
theorem color_normalizer_on_strings_witness :
    color_to_hex (.vStr "#0a0b0c") = none ∧
    hex_color (.vStr "#0a0b0c") = "#000000" :=
  ⟨(color_normalizer_on_strings "#0a0b0c").1,
   (color_normalizer_on_strings "#0a0b0c").2 (by decide)⟩

/- ---------------------------------------------------------------------------
Claim C8 — unrecognized color representations
--------------------------------------------------------------------------- -/

/-- Counterexample to C8: `_color_to_hex` maps an unrecognized representation
(a string) to `None`, not to `"#000000"`. -/
theorem unrecognized_color_counterexample :
    color_to_hex (.vStr "hello") = none ∧
    (none : Option String) ≠ some "#000000" := by
  refine ⟨rfl, by decide⟩

/-- An entry on which Python `x * 255` itself raises `TypeError`: `None` or
a nested sequence (`int(None * 255)` and `int(list * 255)` are unreachable —
the multiplication already fails). -/
theorem pyMul255ThenInt_raising {x : PyVal}
    (h : x = .vNone ∨ ∃ l, x = .vList l) : pyMul255ThenInt x = none := by
  rcases h with rfl | ⟨l, rfl⟩ <;> rfl

set_option maxRecDepth 16384 in
/-- C8 (amended): both normalizers are total (they never raise — in the
embedding they return plain values on every input).  `_hex_color` returns
`"#000000"` for `None` and for lists/tuples, on which `int()` always raises.
`_color_to_hex` returns `None` — not `"#000000"` — for `None`, for every
string, for sequences shorter than 3, and for sequences whose first three
entries include a `None` or a nested sequence; but a decimal-digit string
entry is not an error path at all: string repetition makes `int(entry * 255)`
parse, so `("1", 0, 0)` yields a long out-of-band hex string rather than
`None` or `"#000000"`. -/
theorem unrecognized_color_normalization :
    hex_color (.vNone) = "#000000" ∧
    (∀ xs : List PyVal, hex_color (.vList xs) = "#000000") ∧
    color_to_hex (.vNone) = none ∧
    (∀ s : String, color_to_hex (.vStr s) = none) ∧
    (∀ xs : List PyVal, xs.length < 3 → color_to_hex (.vList xs) = none) ∧
    (∀ (x y z : PyVal) (t : List PyVal),
      ((x = .vNone ∨ ∃ l, x = .vList l) ∨ (y = .vNone ∨ ∃ l, y = .vList l) ∨
        (z = .vNone ∨ ∃ l, z = .vList l)) →
      color_to_hex (.vList (x :: y :: z :: t)) = none) ∧
    (color_to_hex (.vList (.vStr "1" :: .vInt 0 :: .vInt 0 :: [])) ≠ none ∧
     color_to_hex (.vList (.vStr "1" :: .vInt 0 :: .vInt 0 :: [])) ≠
       some "#000000") := by
  refine ⟨rfl, fun xs => rfl, rfl, fun s => rfl, ?_, ?_, ?_, ?_⟩
  · intro xs h
    rcases xs with _ | ⟨a, _ | ⟨b, _ | ⟨c, t⟩⟩⟩
    · rfl
    · rfl
    · rfl
    · simp at h
      omega
  · intro x y z t h
    have hnone : pyMul255ThenInt x = none ∨ pyMul255ThenInt y = none ∨
        pyMul255ThenInt z = none := by
      rcases h with h | h | h
      · exact Or.inl (pyMul255ThenInt_raising h)
      · exact Or.inr (Or.inl (pyMul255ThenInt_raising h))
      · exact Or.inr (Or.inr (pyMul255ThenInt_raising h))
    cases hx : pyMul255ThenInt x <;> cases hy : pyMul255ThenInt y <;>
      cases hz : pyMul255ThenInt z <;> simp_all [color_to_hex]
  · decide
  · decide

/-- Witness for C8: the amended statement applied at concrete unrecognized
inputs. -/
theorem unrecognized_color_normalization_witness :
    hex_color (.vList [.vInt 3]) = "#000000" ∧
    color_to_hex (.vList [.vInt 1]) = none ∧
    color_to_hex (.vList (.vNone :: .vInt 0 :: .vInt 0 :: [])) = none :=
  ⟨unrecognized_color_normalization.2.1 [.vInt 3],
   unrecognized_color_normalization.2.2.2.2.1 [.vInt 1] (by decide),
   unrecognized_color_normalization.2.2.2.2.2.1 .vNone (.vInt 0) (.vInt 0) []
     (Or.inl (Or.inl rfl))⟩

/- ---------------------------------------------------------------------------
Claim C1 — column detection
--------------------------------------------------------------------------- -/

/-- The best gap recorded by the scan never decreases. -/
theorem foldl_stepSplit_fst_mono (xs : List ℚ) (W : ℚ) :
    ∀ (ps : List (ℚ × ℚ)) (acc : ℚ × Option ℚ),
      acc.1 ≤ (ps.foldl (stepSplit xs W) acc).1 := by
  intro ps
  induction ps with
  | nil => intro acc; exact le_refl _
  | cons p ps ih =>
    intro acc
    refine le_trans ?_ (ih (stepSplit xs W acc p))
    unfold stepSplit
    split_ifs with h
    · exact le_of_lt h.1
    · exact le_refl _

/-- Every eligible pair's gap is bounded by the final best gap. -/
theorem foldl_stepSplit_ge_of_elig (xs : List ℚ) (W : ℚ) :
    ∀ (ps : List (ℚ × ℚ)) (acc : ℚ × Option ℚ) (p : ℚ × ℚ),
      p ∈ ps → eligSplit xs W p →
      p.2 - p.1 ≤ (ps.foldl (stepSplit xs W) acc).1 := by
  intro ps
  induction ps with
  | nil => intro acc p hp; simp at hp
  | cons q ps ih =>
    intro acc p hp helig
    rcases List.mem_cons.mp hp with rfl | hp'
    · refine le_trans ?_ (foldl_stepSplit_fst_mono xs W ps (stepSplit xs W acc p))
      unfold stepSplit
      split_ifs with h
      · exact le_refl _
      · rcases not_and_or.mp h with h1 | h1
        · exact le_of_not_lt h1
        · exact absurd helig h1
    · exact ih (stepSplit xs W acc q) p hp' helig

/-- The scan either leaves the accumulator untouched or returns the gap and
midpoint of some eligible pair in the scanned list. -/
theorem foldl_stepSplit_cases (xs : List ℚ) (W : ℚ) :
    ∀ (ps : List (ℚ × ℚ)) (acc : ℚ × Option ℚ),
      (ps.foldl (stepSplit xs W) acc = acc) ∨
      (∃ p ∈ ps, eligSplit xs W p ∧
        (ps.foldl (stepSplit xs W) acc).1 = p.2 - p.1 ∧
        (ps.foldl (stepSplit xs W) acc).2 = some ((p.1 + p.2) / 2)) := by
  intro ps
  induction ps with
  | nil => intro acc; exact Or.inl rfl
  | cons q ps ih =>
    intro acc
    by_cases h : acc.1 < q.2 - q.1 ∧ eligSplit xs W q
    · have hstep : stepSplit xs W acc q = (q.2 - q.1, some ((q.1 + q.2) / 2)) := by
        unfold stepSplit; rw [if_pos h]
      rcases ih (stepSplit xs W acc q) with h2 | h2
      · have h2b : List.foldl (stepSplit xs W) (q.2 - q.1, some ((q.1 + q.2) / 2)) ps =
            (q.2 - q.1, some ((q.1 + q.2) / 2)) := by rw [← hstep]; exact h2
        refine Or.inr ⟨q, List.mem_cons_self q ps, h.2, ?_, ?_⟩
        · rw [List.foldl_cons, hstep, h2b]
        · rw [List.foldl_cons, hstep, h2b]
      · obtain ⟨p, hp, he, h3, h4⟩ := h2
        exact Or.inr ⟨p, List.mem_cons_of_mem q hp, he, by simpa using h3, by simpa using h4⟩
    · have hstep : stepSplit xs W acc q = acc := by
        unfold stepSplit; rw [if_neg h]
      rcases ih (stepSplit xs W acc q) with h2 | h2
      · exact Or.inl (by simp only [List.foldl_cons, hstep] at h2 ⊢; exact h2)
      · obtain ⟨p, hp, he, h3, h4⟩ := h2
        refine Or.inr ⟨p, List.mem_cons_of_mem q hp, he, ?_, ?_⟩
        · simpa [hstep] using h3
        · simpa [hstep] using h4

/-- C1 (amended): column detection requires at least 4 blocks; a returned
split is the midpoint of a consecutive pair of the sorted x0 values that is
in the middle zone, has at least 2 blocks strictly left and at least 2
at-or-right, has a gap exceeding 0.10·W, and its gap is maximal among all
pairs satisfying the zone and count tests (the count test takes part in
candidate eligibility during the scan, rather than being applied only to the
largest-gap zone candidate as the claim states).  For blocks at x0
{50, 52, 300, 305} on a 600 pt page the split is x = 176. -/
theorem detect_column_split_characterization (xs : List ℚ) (W : ℚ) :
    (xs.length < 4 → detect_column_split xs W = none) ∧
    (∀ s : ℚ, detect_column_split xs W = some s →
      ∃ p ∈ (List.insertionSort (· ≤ ·) xs).zip (List.insertionSort (· ≤ ·) xs).tail,
        s = (p.1 + p.2) / 2 ∧ eligSplit xs W p ∧ W * (1/10) < p.2 - p.1 ∧
        ∀ q ∈ (List.insertionSort (· ≤ ·) xs).zip (List.insertionSort (· ≤ ·) xs).tail,
          eligSplit xs W q → q.2 - q.1 ≤ p.2 - p.1) ∧
    detect_column_split [50, 52, 300, 305] 600 = some 176 := by
  refine ⟨?_, ?_, ?_⟩
  · intro h
    unfold detect_column_split
    rw [if_pos h]
  · intro s hs
    by_cases hlen : xs.length < 4
    · have hnone : detect_column_split xs W = none := by
        unfold detect_column_split; rw [if_pos hlen]
      rw [hnone] at hs
      exact absurd hs (by simp)
    · have hval : detect_column_split xs W =
        (if W * (1/10) <
            (((List.insertionSort (· ≤ ·) xs).zip
                (List.insertionSort (· ≤ ·) xs).tail).foldl (stepSplit xs W) (0, none)).1
         then (((List.insertionSort (· ≤ ·) xs).zip
                (List.insertionSort (· ≤ ·) xs).tail).foldl (stepSplit xs W) (0, none)).2
         else none) := by
        unfold detect_column_split; rw [if_neg hlen]
      rw [hval] at hs
      rcases foldl_stepSplit_cases xs W
          ((List.insertionSort (· ≤ ·) xs).zip (List.insertionSort (· ≤ ·) xs).tail)
          (0, none) with hc | hc
      · rw [hc] at hs
        split_ifs at hs
      · obtain ⟨p, hp, he, h3, h4⟩ := hc
        rw [h3, h4] at hs
        split_ifs at hs with hgap
        · injection hs with h5
          refine ⟨p, hp, h5.symm, he, hgap, ?_⟩
          intro q hq heq
          calc q.2 - q.1 ≤ (((List.insertionSort (· ≤ ·) xs).zip
                (List.insertionSort (· ≤ ·) xs).tail).foldl (stepSplit xs W) (0, none)).1 :=
              foldl_stepSplit_ge_of_elig xs W _ (0, none) q hq heq
            _ = p.2 - p.1 := h3
  · norm_num [detect_column_split, stepSplit, eligSplit, countLt, countGe,
      List.insertionSort, List.orderedInsert]

/-- Witness for C1: the minimum-block rule applied to a 3-block input. -/
theorem detect_column_split_characterization_witness :
    detect_column_split [10, 20, 30] 600 = none :=
  (detect_column_split_characterization [10, 20, 30] 600).1 (by norm_num)

/-- Counterexample to C1 as stated: for x0 values
{60, 270, 271, 340, 341, 342} on a 600 pt page, the largest-gap candidate in
the zone (midpoint 165, gap 210) fails the two-blocks-per-side test, so the
claimed procedure reports no split — but the code, which applies the count
test during candidate selection, discards that candidate early and returns
the split 305.5 from the smaller 69 pt gap. -/
theorem detect_column_split_count_rule_counterexample :
    detect_column_split [60, 270, 271, 340, 341, 342] 600 = some (611/2) ∧
    detect_column_split_claimed [60, 270, 271, 340, 341, 342] 600 = none ∧
    some ((611 : ℚ)/2) ≠ none := by
  refine ⟨?_, ?_, by simp⟩
  · norm_num [detect_column_split, stepSplit, eligSplit, countLt, countGe,
      List.insertionSort, List.orderedInsert]
  · norm_num [detect_column_split_claimed, countLt, countGe,
      List.insertionSort, List.orderedInsert]

/- ---------------------------------------------------------------------------
Claim C5 — line order in the paragraph merger
--------------------------------------------------------------------------- -/

/-- Every paragraph built by `mergeLoop` inherits its top (`y0`) from the
running paragraph or from one of the remaining lines (merging never changes
`y0`). -/
theorem mergeLoop_y0_mem :
    ∀ (ls : List MLine) (c p : MLine), p ∈ mergeLoop c ls →
      p.bbox.y0 = c.bbox.y0 ∨ ∃ q ∈ ls, p.bbox.y0 = q.bbox.y0 := by
  intro ls
  induction ls with
  | nil =>
    intro c p hp
    simp [mergeLoop] at hp
    exact Or.inl (by rw [hp])
  | cons l rest ih =>
    intro c p hp
    by_cases h : mergeCondHolds c l
    · rw [mergeLoop_cons_of_cond _ h] at hp
      rcases ih (mergeInto c l) p hp with h1 | ⟨q, hq, h1⟩
      · exact Or.inl h1
      · exact Or.inr ⟨q, List.mem_cons_of_mem l hq, h1⟩
    · rw [mergeLoop_cons_of_not_cond _ h] at hp
      rcases List.mem_cons.mp hp with rfl | hp'
      · exact Or.inl rfl
      · rcases ih l p hp' with h1 | ⟨q, hq, h1⟩
        · exact Or.inr ⟨l, List.mem_cons_self l rest, h1⟩
        · exact Or.inr ⟨q, List.mem_cons_of_mem l hq, h1⟩

/-- If the running paragraph and the remaining lines are in `y0`-ascending
order, the output of `mergeLoop` is in `y0`-ascending order. -/
theorem mergeLoop_sorted :
    ∀ (ls : List MLine) (c : MLine),
      (c :: ls).Pairwise (fun a b => a.bbox.y0 ≤ b.bbox.y0) →
      (mergeLoop c ls).Pairwise (fun a b => a.bbox.y0 ≤ b.bbox.y0) := by
  intro ls
  induction ls with
  | nil => intro c _; simp [mergeLoop]
  | cons l rest ih =>
    intro c h
    obtain ⟨hc, hrest⟩ := List.pairwise_cons.mp h
    by_cases hm : mergeCondHolds c l
    · rw [mergeLoop_cons_of_cond _ hm]
      refine ih (mergeInto c l) (List.pairwise_cons.mpr ⟨?_, hrest.of_cons⟩)
      intro b hb
      exact hc b (List.mem_cons_of_mem l hb)
    · rw [mergeLoop_cons_of_not_cond _ hm]
      refine List.pairwise_cons.mpr ⟨?_, ih l hrest⟩
      intro p hp
      rcases mergeLoop_y0_mem rest l p hp with h1 | ⟨q, hq, h1⟩
      · rw [h1]; exact hc l (List.mem_cons_self l rest)
      · rw [h1]; exact hc q (List.mem_cons_of_mem l hq)

/-- C5 (amended): the merger performs no sort — lines enter the
paragraph-merge step in extraction order.  Provided the extracted lines are
already in `y0`-ascending order, the output paragraph list is ordered by top
ascending (each paragraph keeps the top of its first line). -/
theorem paragraphs_sorted_of_sorted_lines :
    (∀ lines : List MLine,
      lines.Pairwise (fun a b => a.bbox.y0 ≤ b.bbox.y0) →
      (merge_lines_to_paragraphs lines).Pairwise (fun a b => a.bbox.y0 ≤ b.bbox.y0)) ∧
    (∀ raw_blocks : List RawBlock,
      (spansToLines raw_blocks).Pairwise (fun a b => a.bbox.y0 ≤ b.bbox.y0) →
      (merge_spans_to_blocks raw_blocks).Pairwise (fun a b => a.bbox.y0 ≤ b.bbox.y0)) := by
  have h1 : ∀ lines : List MLine,
      lines.Pairwise (fun a b => a.bbox.y0 ≤ b.bbox.y0) →
      (merge_lines_to_paragraphs lines).Pairwise (fun a b => a.bbox.y0 ≤ b.bbox.y0) := by
    intro lines h
    cases lines with
    | nil => simp [merge_lines_to_paragraphs]
    | cons l ls => exact mergeLoop_sorted ls l h
  exact ⟨h1, fun raw_blocks h => h1 (spansToLines raw_blocks) h⟩

/-- Witness for C5: the amended statement applied to two concrete sorted
lines. -/
theorem paragraphs_sorted_of_sorted_lines_witness :
    (merge_lines_to_paragraphs
      [⟨⟨0, 0, 10, 10⟩, "B", "F", 20, "#000000", 0⟩,
       ⟨⟨0, 100, 10, 110⟩, "A", "F", 12, "#000000", 0⟩]).Pairwise
      (fun a b => a.bbox.y0 ≤ b.bbox.y0) :=
  paragraphs_sorted_of_sorted_lines.1 _ (by norm_num [List.pairwise_cons])

/-- Counterexample to C5: `_merge_spans_to_blocks` does not sort lines by top
before merging.  For a raw block whose two lines arrive bottom-first
(tops 100 then 0, both size 12, same x0), the code merges them into one
paragraph (the "gap" is −110 ≤ 7.2), while the claimed sort-first procedure
keeps them apart (gap 90 > 7.2); and for lines of sizes 12 and 20 arriving
bottom-first the output paragraph list is not ordered by top ascending. -/
theorem merge_without_sort_counterexample :
    (merge_spans_to_blocks
      [⟨0, ⟨0, 0, 10, 110⟩,
        [⟨⟨0, 100, 10, 110⟩, [⟨"A", ⟨0, 100, 10, 110⟩, "F", 12, 0, 0⟩]⟩,
         ⟨⟨0, 0, 10, 10⟩, [⟨"B", ⟨0, 0, 10, 10⟩, "F", 12, 0, 0⟩]⟩]⟩]).length = 1 ∧
    (merge_spans_to_blocks_claimed
      [⟨0, ⟨0, 0, 10, 110⟩,
        [⟨⟨0, 100, 10, 110⟩, [⟨"A", ⟨0, 100, 10, 110⟩, "F", 12, 0, 0⟩]⟩,
         ⟨⟨0, 0, 10, 10⟩, [⟨"B", ⟨0, 0, 10, 10⟩, "F", 12, 0, 0⟩]⟩]⟩]).length = 2 ∧
    ¬ (merge_spans_to_blocks
      [⟨0, ⟨0, 0, 10, 110⟩,
        [⟨⟨0, 100, 10, 110⟩, [⟨"C", ⟨0, 100, 10, 110⟩, "F", 12, 0, 0⟩]⟩,
         ⟨⟨0, 0, 10, 10⟩, [⟨"D", ⟨0, 0, 10, 10⟩, "F", 20, 0, 0⟩]⟩]⟩]).Pairwise
      (fun a b => a.bbox.y0 ≤ b.bbox.y0) := by
  have hs1 : spansToLines
      [⟨0, ⟨0, 0, 10, 110⟩,
        [⟨⟨0, 100, 10, 110⟩, [⟨"A", ⟨0, 100, 10, 110⟩, "F", 12, 0, 0⟩]⟩,
         ⟨⟨0, 0, 10, 10⟩, [⟨"B", ⟨0, 0, 10, 10⟩, "F", 12, 0, 0⟩]⟩]⟩] =
      [⟨⟨0, 100, 10, 110⟩, "A", "F", 12, "#000000", 0⟩,
       ⟨⟨0, 0, 10, 10⟩, "B", "F", 12, "#000000", 0⟩] := by decide
  have hs2 : spansToLines
      [⟨0, ⟨0, 0, 10, 110⟩,
        [⟨⟨0, 100, 10, 110⟩, [⟨"C", ⟨0, 100, 10, 110⟩, "F", 12, 0, 0⟩]⟩,
         ⟨⟨0, 0, 10, 10⟩, [⟨"D", ⟨0, 0, 10, 10⟩, "F", 20, 0, 0⟩]⟩]⟩] =
      [⟨⟨0, 100, 10, 110⟩, "C", "F", 12, "#000000", 0⟩,
       ⟨⟨0, 0, 10, 10⟩, "D", "F", 20, "#000000", 0⟩] := by decide
  refine ⟨?_, ?_, ?_⟩
  · rw [merge_spans_to_blocks, hs1]
    norm_num [merge_lines_to_paragraphs, mergeLoop, mergeCondHolds, mergeInto]
  · rw [merge_spans_to_blocks_claimed, hs1]
    norm_num [merge_lines_to_paragraphs, mergeLoop, mergeCondHolds, mergeInto,
      List.insertionSort, List.orderedInsert]
  · rw [merge_spans_to_blocks, hs2]
    norm_num [merge_lines_to_paragraphs, mergeLoop, mergeCondHolds, mergeInto,
      List.pairwise_cons]

/- ---------------------------------------------------------------------------
Claim C6 — image and render file naming
--------------------------------------------------------------------------- -/

/-- C6 (amended): every full-page render (structured extractor and ZIP
extractor) is named `page{page:03d}_render.png` per the convention;
`extract_layout` names embedded images `page{page:03d}_img{xref}.png` per the
convention (with the xref as the identifier); the structured extractor and
the ZIP extractor agree on the extended embedded-image pattern
`page{page:03d}_img{idx:02d}_xref{xref}.{ext}`. -/
theorem naming_convention_refinement (page_idx pno xref page_no img_idx : ℕ)
    (ext : String) :
    render_png_name page_idx = specRenderName (page_idx + 1) ∧
    zip_render_name page_no = specRenderName page_no ∧
    layout_image_name pno xref = specEmbeddedName (pno + 1) xref "png" ∧
    structured_image_name page_idx img_idx xref ext =
      zip_image_name (page_idx + 1) (img_idx + 1) xref ext := by
  refine ⟨rfl, rfl, ?_, rfl⟩
  apply String.ext
  simp [layout_image_name, specEmbeddedName, String.data_append]

/-- Counterexample to C6: the embedded-image file `PDFImageExtractor.
extract_images` writes for the first image of page 1 in `png` format is
`page_1_img_1.png`, which matches `page{page:03d}_img{ident}.{ext}` for no
identifier and no extension (the convention's prefix forces a zero-padded
`page001`). -/
theorem extract_images_naming_counterexample :
    extract_images_name 0 1 "png" = "page_1_img_1.png" ∧
    ¬ ∃ (ident : ℕ) (ext : String),
        specEmbeddedName 1 ident ext = extract_images_name 0 1 "png" := by
  constructor
  · decide
  · rintro ⟨ident, ext, h⟩
    have hp : pyPad 3 1 = "001" := by decide
    have he : extract_images_name 0 1 "png" = "page_1_img_1.png" := by decide
    rw [he] at h
    unfold specEmbeddedName at h
    rw [hp] at h
    have h2 := congrArg String.data h
    simp [String.data_append] at h2

/- ---------------------------------------------------------------------------
Claim C9 — per-image failure locality
--------------------------------------------------------------------------- -/

/-- The image loop is local: a page's image list splits anywhere, and the
second part is processed independently with the index advanced by the length
of the first — each image's element depends only on that image and its
detection index. -/
theorem goImages_append (p : ℕ) (sid burl : String) (av : Bool) :
    ∀ (xs ys : List ImgInput) (idx : ℕ),
      goImages p sid burl av idx (xs ++ ys) =
        goImages p sid burl av idx xs ++ goImages p sid burl av (idx + xs.length) ys := by
  intro xs
  induction xs with
  | nil => intro ys idx; simp [goImages]
  | cons im rest ih =>
    intro ys idx
    have hidx : idx + 1 + rest.length = idx + (im :: rest).length := by
      simp [List.length_cons]; omega
    cases h : imageElemOf p idx sid burl av im with
    | none =>
      simp only [List.cons_append, goImages, h, List.append_eq]
      rw [ih ys (idx + 1), hidx]
    | some e =>
      simp only [List.cons_append, goImages, h, List.append_eq]
      rw [ih ys (idx + 1), hidx]

/-- C9 (amended): per-image failures are local.  The loop splits around any
image (locality); an image with no placement rect, or whose bytes cannot be
extracted, is dropped while everything else proceeds; an image whose raster
cannot be decoded (or when the hashing library is unavailable) is kept with
`phash = None` and dimensions falling back to its placement-rect geometry;
an image that decodes but whose hashing fails is kept with `phash = None`
and the *decoded pixel* dimensions (not the placement-rect fallback the
claim states). -/
theorem image_failure_locality :
    (∀ (p : ℕ) (sid burl : String) (av : Bool) (xs ys : List ImgInput) (idx : ℕ),
      goImages p sid burl av idx (xs ++ ys) =
        goImages p sid burl av idx xs ++ goImages p sid burl av (idx + xs.length) ys) ∧
    (∀ (p idx : ℕ) (sid burl : String) (av : Bool) (im : ImgInput),
      im.rects = [] → imageElemOf p idx sid burl av im = none) ∧
    (∀ (p idx : ℕ) (sid burl : String) (av : Bool) (im : ImgInput),
      im.extractOk = none → imageElemOf p idx sid burl av im = none) ∧
    (∀ (p idx : ℕ) (sid burl : String) (av : Bool) (im : ImgInput)
      (r : Rect) (rs : List Rect) (ext0 : String),
      im.rects = r :: rs → im.extractOk = some ext0 → im.decodeOk = none →
      ∃ e : Elem, imageElemOf p idx sid burl av im = some e ∧ e.phash = none ∧
        e.width_px = pyTrunc (r.x1 - r.x0) ∧ e.height_px = pyTrunc (r.y1 - r.y0)) ∧
    (∀ (p idx : ℕ) (sid burl : String) (im : ImgInput)
      (r : Rect) (rs : List Rect) (ext0 : String) (w h : ℤ),
      im.rects = r :: rs → im.extractOk = some ext0 → im.decodeOk = some (w, h) →
      w ≠ 0 →
      ∃ e : Elem, imageElemOf p idx sid burl true im = some e ∧ e.phash = im.hashOk ∧
        e.width_px = w ∧ e.height_px = h) := by
  refine ⟨goImages_append, ?_, ?_, ?_, ?_⟩
  · intro p idx sid burl av im h
    unfold imageElemOf
    rw [h]
  · intro p idx sid burl av im h
    unfold imageElemOf
    cases hr : im.rects with
    | nil => rfl
    | cons r rs => rw [h]
  · intro p idx sid burl av im r rs ext0 hr hex hdec
    unfold imageElemOf
    rw [hr, hex]
    cases av with
    | false => exact ⟨_, rfl, rfl, rfl, rfl⟩
    | true => rw [hdec]; exact ⟨_, rfl, rfl, rfl, rfl⟩
  · intro p idx sid burl im r rs ext0 w h hr hex hdec hw
    unfold imageElemOf
    rw [hr, hex, hdec]
    refine ⟨_, rfl, ?_, ?_, ?_⟩ <;> simp [hw]

/-- Witness for C9: the decode-failure case applied at a concrete image. -/
theorem image_failure_locality_witness :
    ∃ e : Elem,
      imageElemOf 0 0 "sess" "" true
        { xref := 7, rects := [⟨0, 0, 10, 20⟩], extractOk := some "png",
          decodeOk := none } = some e ∧
      e.phash = none ∧ e.width_px = pyTrunc ((10 : ℚ) - 0) ∧
      e.height_px = pyTrunc ((20 : ℚ) - 0) :=
  image_failure_locality.2.2.2.1 0 0 "sess" "" true _ ⟨0, 0, 10, 20⟩ [] "png"
    rfl rfl rfl

/-- Counterexample to C9 as stated: for an image that decodes to 33×44 pixels
but whose perceptual hashing fails, the element keeps the decoded pixel
dimensions 33×44 with `phash = None`; it does not fall back to its
10×20 placement-rect geometry as the claim states. -/
theorem image_hash_failure_counterexample :
    (extract_image_elements
      [{ xref := 7, rects := [⟨0, 0, 10, 20⟩], extractOk := some "png",
         decodeOk := some (33, 44), hashOk := none }] 0 "sess" "" true).map
      (fun e => (e.phash, e.width_px, e.height_px)) = [(none, 33, 44)] ∧
    ((⟨0, 0, 10, 20⟩ : Rect).x1 - (⟨0, 0, 10, 20⟩ : Rect).x0 = 10 ∧
     (⟨0, 0, 10, 20⟩ : Rect).y1 - (⟨0, 0, 10, 20⟩ : Rect).y0 = 20) ∧
    (33 : ℤ) ≠ 10 ∧ (44 : ℤ) ≠ 20 := by
  refine ⟨?_, ⟨by norm_num, by norm_num⟩, by decide, by decide⟩
  norm_num [extract_image_elements, goImages, imageElemOf]

/- ---------------------------------------------------------------------------
Claim C3 — paint-order banding and stability
--------------------------------------------------------------------------- -/

/-- Inserting an element whose key is at most every key of a trailing segment
never crosses into that segment. -/
theorem orderedInsert_append_right (a : Elem) :
    ∀ (L B : List Elem), (∀ b ∈ B, a.order ≤ b.order) →
      List.orderedInsert (fun x y => x.order ≤ y.order) a (L ++ B) =
        List.orderedInsert (fun x y => x.order ≤ y.order) a L ++ B := by
  intro L
  induction L with
  | nil =>
    intro B hB
    cases B with
    | nil => rfl
    | cons b B' =>
      simp only [List.nil_append, List.orderedInsert]
      rw [if_pos (hB b (List.mem_cons_self b B'))]
      rfl
  | cons c L' ih =>
    intro B hB
    simp only [List.cons_append, List.orderedInsert, List.append_eq]
    by_cases h : a.order ≤ c.order
    · rw [if_pos h, if_pos h]
      rfl
    · rw [if_neg h, if_neg h, ih B hB]
      rfl

/-- Sorting a concatenation whose right part is already sorted and dominates
the left part sorts only the left part. -/
theorem insertionSort_append_of_le :
    ∀ (A B : List Elem),
      B.Sorted (fun x y : Elem => x.order ≤ y.order) →
      (∀ a ∈ A, ∀ b ∈ B, a.order ≤ b.order) →
      List.insertionSort (fun x y : Elem => x.order ≤ y.order) (A ++ B) =
        List.insertionSort (fun x y : Elem => x.order ≤ y.order) A ++ B := by
  intro A
  induction A with
  | nil =>
    intro B hB _
    simp only [List.nil_append, List.insertionSort]
    exact hB.insertionSort_eq
  | cons a A' ih =>
    intro B hB hAB
    simp only [List.cons_append, List.insertionSort, List.append_eq]
    rw [ih B hB (fun x hx b hb => hAB x (List.mem_cons_of_mem a hx) b hb)]
    exact orderedInsert_append_right a _ B
      (fun b hb => hAB a (List.mem_cons_self a A') b hb)

/-- Insertion into a list commutes with key-filtering as if the element were
prepended: elements skipped during insertion have strictly larger keys, so
they cannot share the inserted element's key. -/
theorem orderedInsert_filter_key (a : Elem) (k : ℕ) :
    ∀ s : List Elem,
      (List.orderedInsert (fun x y => x.order ≤ y.order) a s).filter
          (fun e => e.order == k) =
        ((a :: s).filter (fun e => e.order == k)) := by
  intro s
  induction s with
  | nil => rfl
  | cons b s' ih =>
    simp only [List.orderedInsert]
    by_cases hab : a.order ≤ b.order
    · rw [if_pos hab]
    · rw [if_neg hab]
      by_cases ha : a.order = k <;> by_cases hb : b.order = k
      · omega
      · simp only [List.filter_cons, ih]
        simp [ha, hb]
      · simp only [List.filter_cons, ih]
        simp [ha, hb]
      · simp only [List.filter_cons, ih]
        simp [ha, hb]

/-- Python's stable sort keeps elements of equal key in their original
order: filtering the sorted list at any key yields the same list as
filtering the input. -/
theorem pySortByOrder_stable_filter :
    ∀ (l : List Elem) (k : ℕ),
      (pySortByOrder l).filter (fun e => e.order == k) =
        l.filter (fun e => e.order == k) := by
  intro l
  induction l with
  | nil => intro k; rfl
  | cons a l' ih =>
    intro k
    unfold pySortByOrder at ih ⊢
    simp only [List.insertionSort]
    rw [orderedInsert_filter_key a k]
    simp only [List.filter_cons, ih]

/-- A shape element carries its drawing's detection index as its paint-order
key and the `rect` type tag. -/
theorem shapeOf_some {p i : ℕ} {d : Drawing} {e : Elem}
    (h : shapeOf p i d = some e) : e.order = i ∧ e.etype = .rect := by
  unfold shapeOf at h
  cases hd : d.rect with
  | none => rw [hd] at h; exact Option.noConfusion h
  | some r =>
    simp only [hd] at h
    split_ifs at h
    injection h with h2
    exact ⟨by rw [← h2], by rw [← h2]⟩

/-- Elements emitted by the drawing loop carry detection indices in
`[idx, idx + |drawings|)` and are rect-typed. -/
theorem goShapes_mem {p : ℕ} :
    ∀ (ds : List Drawing) (idx : ℕ) (e : Elem), e ∈ goShapes p idx ds →
      (idx ≤ e.order ∧ e.order < idx + ds.length) ∧ e.etype = .rect := by
  intro ds
  induction ds with
  | nil => intro idx e he; simp [goShapes] at he
  | cons d rest ih =>
    intro idx e he
    rw [goShapes] at he
    cases h : shapeOf p idx d with
    | none =>
      rw [h] at he
      obtain ⟨⟨h1, h2⟩, h3⟩ := ih (idx + 1) e he
      exact ⟨⟨by omega, by simp only [List.length_cons]; omega⟩, h3⟩
    | some e0 =>
      rw [h] at he
      rcases List.mem_cons.mp he with rfl | he'
      · obtain ⟨h1, h2⟩ := shapeOf_some h
        exact ⟨⟨by omega, by simp only [List.length_cons]; omega⟩, h2⟩
      · obtain ⟨⟨h1, h2⟩, h3⟩ := ih (idx + 1) e he'
        exact ⟨⟨by omega, by simp only [List.length_cons]; omega⟩, h3⟩

/-- An image element carries its image's detection index as its paint-order
key and the `image` type tag. -/
theorem imageElemOf_some {p i : ℕ} {sid burl : String} {av : Bool}
    {im : ImgInput} {e : Elem}
    (h : imageElemOf p i sid burl av im = some e) :
    e.order = i ∧ e.etype = .image := by
  unfold imageElemOf at h
  cases hr : im.rects with
  | nil => rw [hr] at h; exact Option.noConfusion h
  | cons r rs =>
    simp only [hr] at h
    cases hex : im.extractOk with
    | none => simp only [hex] at h; exact Option.noConfusion h
    | some ext0 =>
      simp only [hex] at h
      injection h with h2
      exact ⟨by rw [← h2], by rw [← h2]⟩

/-- Elements emitted by the image loop carry detection indices in
`[idx, idx + |imgs|)` and are image-typed. -/
theorem goImages_mem {p : ℕ} {sid burl : String} {av : Bool} :
    ∀ (imgs : List ImgInput) (idx : ℕ) (e : Elem),
      e ∈ goImages p sid burl av idx imgs →
      (idx ≤ e.order ∧ e.order < idx + imgs.length) ∧ e.etype = .image := by
  intro imgs
  induction imgs with
  | nil => intro idx e he; simp [goImages] at he
  | cons im rest ih =>
    intro idx e he
    rw [goImages] at he
    cases h : imageElemOf p idx sid burl av im with
    | none =>
      rw [h] at he
      obtain ⟨⟨h1, h2⟩, h3⟩ := ih (idx + 1) e he
      exact ⟨⟨by omega, by simp only [List.length_cons]; omega⟩, h3⟩
    | some e0 =>
      rw [h] at he
      rcases List.mem_cons.mp he with rfl | he'
      · obtain ⟨h1, h2⟩ := imageElemOf_some h
        exact ⟨⟨by omega, by simp only [List.length_cons]; omega⟩, h2⟩
      · obtain ⟨⟨h1, h2⟩, h3⟩ := ih (idx + 1) e he'
        exact ⟨⟨by omega, by simp only [List.length_cons]; omega⟩, h3⟩

/-- A text element carries the running counter as its paint-order key and the
`text` type tag. -/
theorem textElemOf_some {p c : ℕ} {ln : RawLine} {e : Elem}
    (h : textElemOf p c ln = some e) : e.order = c ∧ e.etype = .text := by
  unfold textElemOf at h
  cases hs : ln.spans with
  | nil => rw [hs] at h; exact Option.noConfusion h
  | cons s ss =>
    simp only [hs] at h
    split_ifs at h
    injection h with h2
    exact ⟨by rw [← h2], by rw [← h2]⟩

/-- Orders assigned inside one block's line loop are the consecutive run
starting at the incoming counter. -/
theorem goTextLines_map_order (p : ℕ) :
    ∀ (ls : List RawLine) (c : ℕ),
      (goTextLines p c ls).map Elem.order =
        List.range' c (goTextLines p c ls).length := by
  intro ls
  induction ls with
  | nil => intro c; rfl
  | cons ln rest ih =>
    intro c
    rw [goTextLines]
    cases h : textElemOf p c ln with
    | none => exact ih c
    | some e =>
      simp only [List.map_cons, List.length_cons, List.range'_succ]
      rw [(textElemOf_some h).1, ih (c + 1)]

/-- Orders assigned by the block loop are the consecutive run starting at the
incoming counter. -/
theorem goTextBlocks_map_order (p : ℕ) :
    ∀ (bs : List RawBlock) (c : ℕ),
      (goTextBlocks p c bs).map Elem.order =
        List.range' c (goTextBlocks p c bs).length := by
  intro bs
  induction bs with
  | nil => intro c; rfl
  | cons b rest ih =>
    intro c
    rw [goTextBlocks]
    by_cases hb : b.btype == 0
    · simp only [hb, if_true]
      rw [List.map_append, List.length_append, goTextLines_map_order p b.lines c,
        ih (c + (goTextLines p c b.lines).length)]
      have h1m : c + (goTextLines p c b.lines).length =
          c + 1 * (goTextLines p c b.lines).length := by omega
      rw [h1m, List.range'_append]
      exact congrArg (fun t => List.range' c t) (by omega)
    · simp only [hb, if_false]
      exact ih c

/-- Every text element type-tag is `text`. -/
theorem goTextLines_etype (p : ℕ) :
    ∀ (ls : List RawLine) (c : ℕ) (e : Elem),
      e ∈ goTextLines p c ls → e.etype = .text := by
  intro ls
  induction ls with
  | nil => intro c e he; simp [goTextLines] at he
  | cons ln rest ih =>
    intro c e he
    rw [goTextLines] at he
    cases h : textElemOf p c ln with
    | none => rw [h] at he; exact ih c e he
    | some e0 =>
      rw [h] at he
      rcases List.mem_cons.mp he with rfl | he'
      · exact (textElemOf_some h).2
      · exact ih (c + 1) e he'

theorem goTextBlocks_etype (p : ℕ) :
    ∀ (bs : List RawBlock) (c : ℕ) (e : Elem),
      e ∈ goTextBlocks p c bs → e.etype = .text := by
  intro bs
  induction bs with
  | nil => intro c e he; simp [goTextBlocks] at he
  | cons b rest ih =>
    intro c e he
    rw [goTextBlocks] at he
    by_cases hb : b.btype == 0
    · simp only [hb, if_true, List.mem_append] at he
      rcases he with he | he
      · exact goTextLines_etype p b.lines c e he
      · exact ih _ e he
    · simp only [hb, if_false] at he
      exact ih c e he

/-- C3 (amended): provided the page has at most 101 drawings and at most 101
embedded images (so every shape/image paint-order key is at most 100, the
offset where text keys start), the assembled element list of a page is a
block of shape/image elements followed by all text elements — every shape and
every image appears before every text element; and the sort by paint-order
key is stable, so elements with equal keys keep their original detection
order.  Without that bound the property can fail: a 102nd drawing would get
key 101, sorting after the first text element's key 100. -/
theorem paint_order_banding (drawings : List Drawing) (imgs : List ImgInput)
    (raw_blocks : List RawBlock) (p : ℕ) (sid burl : String) (av : Bool)
    (hd : drawings.length ≤ 101) (hi : imgs.length ≤ 101) :
    (∃ A B : List Elem,
      assemble_page_elements (extract_shape_elements drawings p)
          (extract_image_elements imgs p sid burl av)
          (extract_text_elements raw_blocks p) = A ++ B ∧
        (∀ e ∈ A, e.etype = .rect ∨ e.etype = .image) ∧
        (∀ e ∈ B, e.etype = .text)) ∧
    (∀ (l : List Elem) (k : ℕ),
      (pySortByOrder l).filter (fun e => e.order == k) =
        l.filter (fun e => e.order == k)) := by
  refine ⟨?_, pySortByOrder_stable_filter⟩
  have hmap : (extract_text_elements raw_blocks p).map Elem.order =
      List.range' 100 (extract_text_elements raw_blocks p).length :=
    goTextBlocks_map_order p raw_blocks 100
  have hTsorted : List.Sorted (fun x y : Elem => x.order ≤ y.order)
      (extract_text_elements raw_blocks p) := by
    have h2 : List.Pairwise (· < ·)
        ((extract_text_elements raw_blocks p).map Elem.order) := by
      rw [hmap]; exact List.pairwise_lt_range' 100 _
    exact (List.pairwise_map.mp h2).imp (fun h => le_of_lt h)
  have hT100 : ∀ b ∈ extract_text_elements raw_blocks p, 100 ≤ b.order := by
    intro b hb
    have hmem : b.order ∈ (extract_text_elements raw_blocks p).map Elem.order :=
      List.mem_map_of_mem Elem.order hb
    rw [hmap] at hmem
    exact (List.mem_range'_1.mp hmem).1
  have hlow : ∀ a ∈ extract_shape_elements drawings p ++
      extract_image_elements imgs p sid burl av, a.order ≤ 100 := by
    intro a ha
    rcases List.mem_append.mp ha with ha | ha
    · have := (goShapes_mem drawings 0 a ha).1.2
      omega
    · have := (goImages_mem imgs 0 a ha).1.2
      omega
  have hcross : ∀ a ∈ extract_shape_elements drawings p ++
      extract_image_elements imgs p sid burl av,
      ∀ b ∈ extract_text_elements raw_blocks p, a.order ≤ b.order :=
    fun a ha b hb => le_trans (hlow a ha) (hT100 b hb)
  have key : assemble_page_elements (extract_shape_elements drawings p)
      (extract_image_elements imgs p sid burl av)
      (extract_text_elements raw_blocks p) =
      pySortByOrder (extract_shape_elements drawings p ++
        extract_image_elements imgs p sid burl av) ++
        extract_text_elements raw_blocks p := by
    unfold assemble_page_elements pySortByOrder
    exact insertionSort_append_of_le _ _ hTsorted hcross
  refine ⟨_, _, key, ?_, ?_⟩
  · intro e he
    unfold pySortByOrder at he
    have hmem : e ∈ extract_shape_elements drawings p ++
        extract_image_elements imgs p sid burl av :=
      ((List.perm_insertionSort _ _).mem_iff).mp he
    rcases List.mem_append.mp hmem with h | h
    · exact Or.inl (goShapes_mem drawings 0 e h).2
    · exact Or.inr (goImages_mem imgs 0 e h).2
  · intro e he
    exact goTextBlocks_etype p raw_blocks 100 e he

/-- Witness for C3: the banding statement applied at a concrete page with two
drawings, one image, and a block with three text lines. -/
theorem paint_order_banding_witness :
    (∃ A B : List Elem,
      assemble_page_elements
          (extract_shape_elements
            [⟨some ⟨0, 0, 50, 50⟩, .vFloat 0, .vNone, none⟩,
             ⟨some ⟨0, 60, 50, 110⟩, .vFloat 0, .vNone, none⟩] 0)
          (extract_image_elements
            [{ xref := 3, rects := [⟨0, 0, 10, 10⟩], extractOk := some "png" }]
            0 "s" "" true)
          (extract_text_elements
            [⟨0, ⟨0, 0, 100, 40⟩,
              [⟨⟨0, 0, 100, 10⟩, [⟨"one", ⟨0, 0, 100, 10⟩, "F", 12, 0, 0⟩]⟩,
               ⟨⟨0, 12, 100, 22⟩, [⟨"two", ⟨0, 12, 100, 22⟩, "F", 12, 0, 0⟩]⟩,
               ⟨⟨0, 24, 100, 34⟩, [⟨"three", ⟨0, 24, 100, 34⟩, "F", 12, 0, 0⟩]⟩]⟩] 0) =
        A ++ B ∧
        (∀ e ∈ A, e.etype = .rect ∨ e.etype = .image) ∧
        (∀ e ∈ B, e.etype = .text)) ∧
    (∀ (l : List Elem) (k : ℕ),
      (pySortByOrder l).filter (fun e => e.order == k) =
        l.filter (fun e => e.order == k)) :=
  paint_order_banding _ _ _ 0 "s" "" true (by norm_num) (by norm_num)

/-- Drawings whose rect is smaller than 2 pt are skipped while still
consuming detection indices. -/
theorem goShapes_skip_small (p : ℕ) :
    ∀ (n idx : ℕ) (rest : List Drawing),
      goShapes p idx
          (List.replicate n ⟨some ⟨0, 0, 1, 1⟩, .vNone, .vNone, none⟩ ++ rest) =
        goShapes p (idx + n) rest := by
  have hskip : ∀ i : ℕ,
      shapeOf p i ⟨some ⟨0, 0, 1, 1⟩, .vNone, .vNone, none⟩ = none := by
    intro i
    unfold shapeOf
    norm_num
  intro n
  induction n with
  | zero => intro idx rest; simp
  | succ n ih =>
    intro idx rest
    rw [List.replicate_succ, List.cons_append, goShapes, hskip idx, ih (idx + 1) rest]
    exact congrArg (fun t => goShapes p t rest) (by omega)

/-- Counterexample to C3 as stated: on a page with 102 drawings — 101
sub-2 pt ones that are skipped but consume detection indices, then one
visible rectangle, which therefore gets paint-order key 101 — and one text
line (key 100), the assembled element list places the text element *before*
the rect element, refuting "every shape element appears before every text
element". -/
theorem paint_order_overflow_counterexample :
    (assemble_page_elements
        (extract_shape_elements
          (List.replicate 101 ⟨some ⟨0, 0, 1, 1⟩, .vNone, .vNone, none⟩ ++
            [⟨some ⟨0, 0, 50, 50⟩, .vInt 0, .vNone, none⟩]) 0)
        (extract_image_elements [] 0 "s" "" true)
        (extract_text_elements
          [⟨0, ⟨0, 0, 100, 10⟩,
            [⟨⟨0, 0, 100, 10⟩, [⟨"hello", ⟨0, 0, 100, 10⟩, "F", 12, 0, 0⟩]⟩]⟩] 0)).map
      Elem.etype = [.text, .rect] := by
  cases he : shapeOf 0 101 ⟨some ⟨0, 0, 50, 50⟩, .vInt 0, .vNone, none⟩ with
  | none =>
    exact absurd he (by unfold shapeOf; norm_num [color_to_hex]; constructor <;> simp)
  | some e =>
  obtain ⟨heo, het⟩ := shapeOf_some he
  have hstrip : pyStrip (String.intercalate " "
      ([(⟨"hello", ⟨0, 0, 100, 10⟩, "F", 12, 0, 0⟩ : Span)].map
        (fun sp => pyStrip sp.text))) = "hello" := by decide
  cases ht : textElemOf 0 100
      ⟨⟨0, 0, 100, 10⟩, [⟨"hello", ⟨0, 0, 100, 10⟩, "F", 12, 0, 0⟩]⟩ with
  | none =>
    refine absurd ht ?_
    unfold textElemOf
    simp only [hstrip]
    simp
  | some t =>
  obtain ⟨hto, htt⟩ := textElemOf_some ht
  have hS : extract_shape_elements
      (List.replicate 101 ⟨some ⟨0, 0, 1, 1⟩, .vNone, .vNone, none⟩ ++
        [⟨some ⟨0, 0, 50, 50⟩, .vInt 0, .vNone, none⟩]) 0 = [e] := by
    unfold extract_shape_elements
    rw [goShapes_skip_small 0 101 0 _]
    rw [show (0 + 101 : ℕ) = 101 by omega]
    rw [goShapes, he, goShapes]
  have hT : extract_text_elements
      [⟨0, ⟨0, 0, 100, 10⟩,
        [⟨⟨0, 0, 100, 10⟩, [⟨"hello", ⟨0, 0, 100, 10⟩, "F", 12, 0, 0⟩]⟩]⟩] 0 = [t] := by
    unfold extract_text_elements
    rw [goTextBlocks]
    norm_num [goTextLines, ht, goTextBlocks]
  have hI : extract_image_elements [] 0 "s" "" true = [] := rfl
  rw [hS, hT, hI]
  unfold assemble_page_elements pySortByOrder
  simp only [List.append_nil, List.nil_append, List.insertionSort,
    List.orderedInsert]
  rw [if_neg (by rw [heo, hto]; omega)]
  simp [het, htt]
